import Mathlib

/-!
Verification development for the Frete.AI repository.

The repository documents a two-stage freight dispatch pipeline (a geospatial
candidate tracker followed by a profit-and-risk auditor with a fairness quota)
and ships a web dashboard.  The dispatch engine itself is described in the
design documents but its implementation files are not part of the repository,
so its operations are modelled here from the specification; the web dashboard
list logic is embedded from the TypeScript source directly.
-/

namespace FreteAI

/-! ## Data model of the dispatch engine -/

/-- Modelled from the spec: fleet type enumeration (light-truck,
single-trailer, double-trailer; called Truck, Carreta and Bitrem in the
design document).  The implementation file schemas.py is absent from the
repository. -/
inductive FleetType
  | bitrem
  | carreta
  | truck
deriving DecidableEq, Repr

/-- Modelled from the spec: a load request.  Coordinates are abstracted away;
the geospatial index snapshot below carries the distance of each asset from
the request origin instead.  The implementation file schemas.py is absent
from the repository. -/
structure LoadRequest where
  id : String
  senderId : String
  weightKg : ℚ
  targetPrice : ℚ
  acceptedFleetTypes : List FleetType
  slaDeadlineHours : Nat
  radiusKm : ℚ
  topK : Nat := 10
deriving DecidableEq, Repr

/-- Modelled from the spec: a fleet asset snapshot as read by the core at
request time.  The insurance expiry date and the evaluation date are day
numbers.  The implementation file schemas.py is absent from the repository. -/
structure FleetAsset where
  plate : String
  driverId : String
  fleetType : FleetType
  insuranceValid : Bool
  insuranceExpiry : Int
  slaScore : ℚ
  costPerDistance : ℚ
  daysSinceRegistration : Nat
deriving DecidableEq, Repr

/-- Modelled from the spec: one entry of the AssetIndex snapshot, pairing an
asset with its distance in kilometres from the request origin.  The index
technology itself is an external collaborator, out of scope. -/
structure IndexedAsset where
  asset : FleetAsset
  distanceKm : ℚ
deriving DecidableEq, Repr

/-- Modelled from the spec: the ephemeral per-candidate score computed by the
tracker.  The implementation file retriever.py is absent from the
repository. -/
structure CandidateScore where
  asset : FleetAsset
  distanceKm : ℚ
  marginEstimate : ℚ
  efficiency : ℚ
deriving DecidableEq, Repr

/-! ## GeoCandidateTracker -/

/-- Modelled from the spec: a distance of zero is clamped to a minimum
epsilon to avoid division by zero.  The spec does not fix the epsilon; the
model uses one metre. -/
def distEpsilon : ℚ := 1 / 1000

/-- Modelled from the spec: the AssetIndex radius search, restricted to the
accepted fleet types.  The index is an external collaborator exposing a
find-assets-within-radius primitive. -/
def searchWithinRadius (req : LoadRequest) (snap : List IndexedAsset) : List IndexedAsset :=
  snap.filter fun e =>
    decide (e.distanceKm ≤ req.radiusKm) && req.acceptedFleetTypes.contains e.asset.fleetType

/-- Modelled from the spec: per-asset efficiency score of the tracker,
with marginEstimate = (targetPrice - baseCostPerDistance * distanceKm) / targetPrice
floored at 0 and efficiency = (1 / distanceKm) * slaScore * marginEstimate.
The implementation file retriever.py is absent from the repository. -/
def scoreCandidate (req : LoadRequest) (e : IndexedAsset) : CandidateScore :=
  let m : ℚ := max 0 ((req.targetPrice - e.asset.costPerDistance * e.distanceKm) / req.targetPrice)
  { asset := e.asset
    distanceKm := e.distanceKm
    marginEstimate := m
    efficiency := (1 / max distEpsilon e.distanceKm) * e.asset.slaScore * m }

/-- Modelled from the spec: the tracker rank order: descending by efficiency,
ties broken by higher slaScore, then by lower distance. -/
def rankLE (a b : CandidateScore) : Prop :=
  b.efficiency < a.efficiency ∨
    (a.efficiency = b.efficiency ∧
      (b.asset.slaScore < a.asset.slaScore ∨
        (a.asset.slaScore = b.asset.slaScore ∧ a.distanceKm ≤ b.distanceKm)))

instance : DecidableRel rankLE := fun a b => by
  unfold rankLE
  infer_instance

instance : IsTotal CandidateScore rankLE := by
  constructor
  intro a b
  unfold rankLE
  rcases lt_trichotomy a.efficiency b.efficiency with h | h | h
  · exact Or.inr (Or.inl h)
  · rcases lt_trichotomy a.asset.slaScore b.asset.slaScore with h2 | h2 | h2
    · exact Or.inr (Or.inr ⟨h.symm, Or.inl h2⟩)
    · rcases le_total a.distanceKm b.distanceKm with h3 | h3
      · exact Or.inl (Or.inr ⟨h, Or.inr ⟨h2, h3⟩⟩)
      · exact Or.inr (Or.inr ⟨h.symm, Or.inr ⟨h2.symm, h3⟩⟩)
    · exact Or.inl (Or.inr ⟨h, Or.inl h2⟩)
  · exact Or.inl (Or.inl h)

instance : IsTrans CandidateScore rankLE := by
  constructor
  intro a b c hab hbc
  unfold rankLE at *
  rcases hab with h1 | ⟨e1, h1⟩
  · rcases hbc with h2 | ⟨e2, h2⟩
    · exact Or.inl (lt_trans h2 h1)
    · exact Or.inl (e2 ▸ h1)
  · rcases hbc with h2 | ⟨e2, h2⟩
    · exact Or.inl (e1 ▸ h2)
    · refine Or.inr ⟨e1.trans e2, ?_⟩
      rcases h1 with s1 | ⟨t1, d1⟩
      · rcases h2 with s2 | ⟨t2, d2⟩
        · exact Or.inl (lt_trans s2 s1)
        · exact Or.inl (t2 ▸ s1)
      · rcases h2 with s2 | ⟨t2, d2⟩
        · exact Or.inl (t1 ▸ s2)
        · exact Or.inr ⟨t1.trans t2, d1.trans d2⟩

/-- Modelled from the spec: the tracker contract
findCandidates(request) returning the ordered candidate list: radius search,
per-asset efficiency score, sort by the rank order, truncation to top_k
(default 10).  The implementation file retriever.py is absent from the
repository. -/
def findCandidates (req : LoadRequest) (snap : List IndexedAsset) : List CandidateScore :=
  (List.insertionSort rankLE ((searchWithinRadius req snap).map (scoreCandidate req))).take req.topK

/-! ## RiskPLAuditor and the exploration quota -/

/-- Modelled from the spec: the error taxonomy of business rejections
recorded on a decision.  The implementation file exceptions.py is absent
from the repository. -/
inductive RejectReason
  | insuranceExpired
  | marginInsufficient
  | noCandidatesInRange
deriving DecidableEq, Repr

/-- Terminal status of a dispatch decision. -/
inductive DispatchStatus
  | approved
  | rejected
deriving DecidableEq, Repr

/-- Modelled from the spec: the outcome record assembled once per request.
Latency fields are omitted (real time is outside the embedding).  The
implementation file schemas.py is absent from the repository. -/
structure DispatchDecision where
  requestId : String
  status : DispatchStatus
  chosenAsset : Option FleetAsset
  margin : ℚ
  isNewAsset : Bool
  reasons : List (String × RejectReason)
deriving DecidableEq, Repr

/-- Modelled from the spec: the process-wide rolling-window quota counter
(dispatches_to_new_assets, total_dispatches). -/
structure QuotaState where
  newAssetDispatches : Nat
  totalDispatches : Nat
deriving DecidableEq, Repr

/-- Modelled from the spec: auditor configuration.  The minimum margin
threshold defaults to 0.70, the new-asset age threshold to 30 days, the
exploration quota cap to 0.15.  The risk adjustment is a fixed deduction
whose unit the spec leaves open, so it is a parameter. -/
structure AuditConfig where
  minimumMarginThreshold : ℚ := 7 / 10
  riskAdjustment : ℚ := 50
  newAssetAgeDays : Nat := 30
  quotaCap : ℚ := 3 / 20
deriving DecidableEq, Repr

/-- An asset is classified new when its registration age is below the
configured threshold (30 days by default). -/
def isNewAsset (cfg : AuditConfig) (a : FleetAsset) : Bool :=
  decide (a.daysSinceRegistration < cfg.newAssetAgeDays)

/-- Modelled from the spec: rolling-window ratio of new-asset dispatches,
0 when no dispatch happened yet. -/
def quotaRatio (q : QuotaState) : ℚ :=
  if q.totalDispatches = 0 then 0
  else (q.newAssetDispatches : ℚ) / (q.totalDispatches : ℚ)

/-- Modelled from the spec: the quota has room while the rolling-window
ratio is below the cap. -/
def quotaHasRoom (cfg : AuditConfig) (q : QuotaState) : Prop :=
  quotaRatio q < cfg.quotaCap

instance (cfg : AuditConfig) (q : QuotaState) : Decidable (quotaHasRoom cfg q) := by
  unfold quotaHasRoom
  infer_instance

/-- Modelled from the spec: quota consumption is recorded only on approval;
every approval increments the total, approvals of new assets also increment
the new-asset counter. -/
def recordApproval (q : QuotaState) (isNew : Bool) : QuotaState :=
  { newAssetDispatches := q.newAssetDispatches + (if isNew then 1 else 0)
    totalDispatches := q.totalDispatches + 1 }

/-- Modelled from the spec: contribution margin of a candidate,
(targetPrice - costPerDistance * distance - riskAdjustment) / targetPrice,
with the risk adjustment deducted only for new assets. -/
def computeMargin (cfg : AuditConfig) (req : LoadRequest) (c : CandidateScore) : ℚ :=
  (req.targetPrice - c.asset.costPerDistance * c.distanceKm -
      (if isNewAsset cfg c.asset then cfg.riskAdjustment else 0)) / req.targetPrice

/-- Modelled from the spec: per-candidate validation of the auditor, with
short-circuit on the first failure: the insurance hard veto, then the margin
threshold, then the exploration quota for new assets.  A business rejection
is an error value, never an escaping exception.  The implementation file
checker.py is absent from the repository. -/
def evalCandidate (cfg : AuditConfig) (req : LoadRequest) (today : Int) (q : QuotaState)
    (c : CandidateScore) : Except RejectReason (ℚ × Bool) :=
  if c.asset.insuranceValid = false ∨ today > c.asset.insuranceExpiry then
    .error .insuranceExpired
  else
    let nw := isNewAsset cfg c.asset
    let m := computeMargin cfg req c
    if m < cfg.minimumMarginThreshold then .error .marginInsufficient
    else if nw = true ∧ ¬ quotaHasRoom cfg q then .error .marginInsufficient
    else .ok (m, nw)

/-- Modelled from the spec: the auditor walk over the ranked candidates.
Each rejected candidate contributes one reason, tagged with its plate; the
first fully compliant candidate is approved and the quota counter updated.
The implementation file checker.py is absent from the repository. -/
def auditGo (cfg : AuditConfig) (req : LoadRequest) (today : Int) :
    List CandidateScore → QuotaState → List (String × RejectReason) →
      DispatchDecision × QuotaState
  | [], q, acc =>
    ({ requestId := req.id, status := .rejected, chosenAsset := none, margin := 0,
       isNewAsset := false, reasons := acc.reverse }, q)
  | c :: rest, q, acc =>
    match evalCandidate cfg req today q c with
    | .error r => auditGo cfg req today rest q ((c.asset.plate, r) :: acc)
    | .ok (m, nw) =>
      ({ requestId := req.id, status := .approved, chosenAsset := some c.asset, margin := m,
         isNewAsset := nw, reasons := acc.reverse }, recordApproval q nw)

/-- Modelled from the spec: the auditor contract audit(request, candidates).
An empty candidate list yields a rejection with the single reason
noCandidatesInRange without evaluating any asset. -/
def audit (cfg : AuditConfig) (req : LoadRequest) (today : Int)
    (cands : List CandidateScore) (q : QuotaState) : DispatchDecision × QuotaState :=
  match cands with
  | [] =>
    ({ requestId := req.id, status := .rejected, chosenAsset := none, margin := 0,
       isNewAsset := false, reasons := [(req.id, .noCandidatesInRange)] }, q)
  | c :: rest => auditGo cfg req today (c :: rest) q []

/-! ## DispatchPipeline -/

/-- Modelled from the spec: the pipeline contract dispatch(request): tracker
then auditor, always returning a terminal decision.  Infrastructure failures
and retries concern the external AssetIndex collaborator and are outside the
snapshot model. -/
def dispatch (cfg : AuditConfig) (req : LoadRequest) (today : Int)
    (snap : List IndexedAsset) (q : QuotaState) : DispatchDecision × QuotaState :=
  audit cfg req today (findCandidates req snap) q

/-! ## Quota step relation -/

/-- Modelled from the spec: one transition of the shared quota state: an
approval of an established asset, an approval of a new asset guarded by the
read-then-conditionally-increment rule, or the window reset. -/
inductive QuotaStep (cfg : AuditConfig) : QuotaState → QuotaState → Prop
  | approveOld (q : QuotaState) : QuotaStep cfg q (recordApproval q false)
  | approveNew (q : QuotaState) : quotaHasRoom cfg q → QuotaStep cfg q (recordApproval q true)
  | reset (q : QuotaState) : QuotaStep cfg q ⟨0, 0⟩

/-- States of the quota counter reachable from the empty window by the step
relation. -/
inductive QuotaReachable (cfg : AuditConfig) : QuotaState → Prop
  | init : QuotaReachable cfg ⟨0, 0⟩
  | step {q q' : QuotaState} :
      QuotaReachable cfg q → QuotaStep cfg q q' → QuotaReachable cfg q'

/-! ## Ranking-quality metric (NDCG at target price) -/

/-- Modelled from the spec: the ideal contribution margin used by the
target-price-adherence score, 0.75. -/
noncomputable def idealMargin : ℝ := 3 / 4

/-- Modelled from the spec: per-candidate graded relevance,
1 - abs (margin - idealMargin) / idealMargin. -/
noncomputable def targetRelevance (margin : ℝ) : ℝ :=
  1 - |margin - idealMargin| / idealMargin

/-- Modelled from the spec: the positional discount of the metric,
1 / log2 (i + 2) at zero-based rank i. -/
noncomputable def discountWeight (i : ℕ) : ℝ :=
  1 / Real.logb 2 ((i : ℝ) + 2)

/-- Discounted cumulative gain of a relevance list under a positional weight
sequence. -/
noncomputable def dcgFrom : (ℕ → ℝ) → List ℝ → ℝ
  | _, [] => 0
  | w, r :: rest => w 0 * r + dcgFrom (fun i => w (i + 1)) rest

noncomputable instance : DecidableRel ((· ≥ ·) : ℝ → ℝ → Prop) :=
  fun a b => Real.decidableLE b a

/-- Modelled from the spec: the ideal DCG, computed from the same relevance
values sorted descending. -/
noncomputable def idcgTargetPrice (rels : List ℝ) : ℝ :=
  dcgFrom discountWeight (List.insertionSort (· ≥ ·) rels)

/-- Modelled from the spec: the reported ranking-quality score DCG/IDCG,
defined as 1.0 when only one candidate exists or IDCG equals 0.  The
implementation file checker.py is absent from the repository. -/
noncomputable def ndcgTargetPrice (rels : List ℝ) : ℝ :=
  if rels.length = 1 ∨ idcgTargetPrice rels = 0 then 1
  else dcgFrom discountWeight rels / idcgTargetPrice rels

/-! ## Web dashboard cargo list (embedded from src/web/app/cargas/page.tsx) -/

/-- A cargo entry of the dashboard table; strings are modelled as character
lists. -/
structure Carga where
  id : List Char
  origem : List Char
  destino : List Char
  peso : List Char
  valor : List Char
  status : List Char
deriving DecidableEq, Repr

/-- Case folding of a dashboard string, the model of toLowerCase. -/
def toLowerStr (s : List Char) : List Char := s.map Char.toLower

/-- Substring containment, the model of the includes test on strings. -/
def containsSub (needle hay : List Char) : Prop :=
  List.IsInfix needle hay

instance (n h : List Char) : Decidable (containsSub n h) :=
  List.decidableInfix n h

/-- The search predicate of the cargas page: the lowered id, origem or
destino contains the lowered search term. -/
def matchesSearch (term : List Char) (c : Carga) : Bool :=
  decide (containsSub (toLowerStr term) (toLowerStr c.id)) ||
    decide (containsSub (toLowerStr term) (toLowerStr c.origem)) ||
    decide (containsSub (toLowerStr term) (toLowerStr c.destino))

/-- The filteredCargas computation of the cargas page. -/
def filteredCargas (term : List Char) (cargas : List Carga) : List Carga :=
  cargas.filter (matchesSearch term)

/-- The handleDeleteCarga handler of the cargas page: keep the entries whose
id differs from the deleted one. -/
def handleDeleteCarga (idc : List Char) (cargas : List Carga) : List Carga :=
  cargas.filter fun c => decide (c.id ≠ idc)

/-! ## Concrete examples used by the witnesses -/

/-- Example asset following Scenario A of the spec: valid insurance, high
margin, long-established driver. -/
def assetXYZ : FleetAsset :=
  { plate := "XYZ-5678", driverId := "MOT-0002", fleetType := .carreta,
    insuranceValid := true, insuranceExpiry := 20500, slaScore := 95 / 100,
    costPerDistance := 3 / 2, daysSinceRegistration := 400 }

/-- Example asset with an excessive cost per distance, hence an insufficient
margin. -/
def assetABC : FleetAsset :=
  { plate := "ABC-1234", driverId := "MOT-0001", fleetType := .truck,
    insuranceValid := true, insuranceExpiry := 20500, slaScore := 88 / 100,
    costPerDistance := 20, daysSinceRegistration := 200 }

/-- Example asset with expired insurance, following Scenario C of the spec. -/
def assetPQR : FleetAsset :=
  { plate := "PQR-2468", driverId := "MOT-0003", fleetType := .carreta,
    insuranceValid := false, insuranceExpiry := 19000, slaScore := 90 / 100,
    costPerDistance := 2, daysSinceRegistration := 300 }

/-- Example load request following Scenario A of the spec. -/
def reqEx : LoadRequest :=
  { id := "CARGA-2026-001", senderId := "REM-001", weightKg := 18000,
    targetPrice := 3500, acceptedFleetTypes := [.carreta, .truck],
    slaDeadlineHours := 12, radiusKm := 150, topK := 10 }

/-- Example AssetIndex snapshot for the tracker witnesses. -/
def snapEx : List IndexedAsset :=
  [{ asset := assetXYZ, distanceKm := 58 }, { asset := assetABC, distanceKm := 100 }]

/-- Example ranked candidate: the Scenario A winner at 58 km. -/
def candXYZ : CandidateScore :=
  { asset := assetXYZ, distanceKm := 58, marginEstimate := 0, efficiency := 0 }

/-- Example ranked candidate with insufficient margin at 100 km. -/
def candABC : CandidateScore :=
  { asset := assetABC, distanceKm := 100, marginEstimate := 0, efficiency := 0 }

/-- Example ranked candidate with expired insurance. -/
def candPQR : CandidateScore :=
  { asset := assetPQR, distanceKm := 70, marginEstimate := 0, efficiency := 0 }

/-- Example cargo row of the dashboard table. -/
def cargaEx1 : Carga :=
  { id := "CARGA-2026-001".toList, origem := "Sao Paulo, SP".toList,
    destino := "Rio de Janeiro, RJ".toList, peso := "18.000 kg".toList,
    valor := "R$ 3.500".toList, status := "Despachada".toList }

/-- Second example cargo row of the dashboard table. -/
def cargaEx2 : Carga :=
  { id := "CARGA-2026-002".toList, origem := "Rio de Janeiro, RJ".toList,
    destino := "Parana".toList, peso := "12.000 kg".toList,
    valor := "R$ 2.500".toList, status := "Despachada".toList }

/-! ## Helper lemmas about the auditor -/

theorem evalCandidate_ok_spec {cfg : AuditConfig} {req : LoadRequest} {today : Int}
    {q : QuotaState} {c : CandidateScore} {m : ℚ} {nw : Bool}
    (h : evalCandidate cfg req today q c = .ok (m, nw)) :
    c.asset.insuranceValid = true ∧ today ≤ c.asset.insuranceExpiry ∧
      m = computeMargin cfg req c ∧ cfg.minimumMarginThreshold ≤ m ∧
      nw = isNewAsset cfg c.asset ∧ (nw = true → quotaHasRoom cfg q) := by
  unfold evalCandidate at h
  by_cases h1 : c.asset.insuranceValid = false ∨ today > c.asset.insuranceExpiry
  · rw [if_pos h1] at h; cases h
  rw [if_neg h1] at h
  by_cases h2 : computeMargin cfg req c < cfg.minimumMarginThreshold
  · rw [if_pos h2] at h; cases h
  rw [if_neg h2] at h
  by_cases h3 : isNewAsset cfg c.asset = true ∧ ¬ quotaHasRoom cfg q
  · rw [if_pos h3] at h; cases h
  rw [if_neg h3] at h
  injection h with h
  rw [Prod.mk.injEq] at h
  obtain ⟨hm, hnw⟩ := h
  push_neg at h1
  refine ⟨?_, h1.2, hm.symm, ?_, hnw.symm, ?_⟩
  · rcases Bool.eq_false_or_eq_true c.asset.insuranceValid with hb | hb
    · exact hb
    · exact absurd hb h1.1
  · rw [← hm]; exact not_lt.1 h2
  · intro hnw'
    by_contra hroom
    exact h3 ⟨hnw ▸ hnw', hroom⟩

theorem auditGo_approved_spec (cfg : AuditConfig) (req : LoadRequest) (today : Int)
    (cands : List CandidateScore) (q : QuotaState) :
    ∀ acc : List (String × RejectReason),
      (auditGo cfg req today cands q acc).1.status = .approved →
      ∃ c ∈ cands,
        (auditGo cfg req today cands q acc).1.chosenAsset = some c.asset ∧
        evalCandidate cfg req today q c =
          .ok ((auditGo cfg req today cands q acc).1.margin,
            (auditGo cfg req today cands q acc).1.isNewAsset) := by
  induction cands with
  | nil =>
    intro acc h
    simp [auditGo] at h
  | cons c rest ih =>
    intro acc h
    rcases heval : evalCandidate cfg req today q c with r | mn
    · rw [auditGo, heval] at h ⊢
      obtain ⟨c', hc', hrest⟩ := ih ((c.asset.plate, r) :: acc) h
      exact ⟨c', List.mem_cons_of_mem _ hc', hrest⟩
    · rcases mn with ⟨m, nw⟩
      rw [auditGo, heval]
      exact ⟨c, List.mem_cons_self c rest, rfl, heval⟩

theorem auditGo_rejected_reasons (cfg : AuditConfig) (req : LoadRequest) (today : Int)
    (cands : List CandidateScore) (q : QuotaState) :
    ∀ acc : List (String × RejectReason),
      (auditGo cfg req today cands q acc).1.status = .rejected →
      (auditGo cfg req today cands q acc).1.reasons.map Prod.fst =
        acc.reverse.map Prod.fst ++ cands.map fun c => c.asset.plate := by
  induction cands with
  | nil =>
    intro acc _
    simp [auditGo]
  | cons c rest ih =>
    intro acc h
    rcases heval : evalCandidate cfg req today q c with r | mn
    · rw [auditGo, heval] at h ⊢
      have := ih ((c.asset.plate, r) :: acc) h
      rw [this]
      simp
    · rw [auditGo, heval] at h
      rcases mn with ⟨m, nw⟩
      simp at h

/-! ## Claim theorems -/

/-- C1: an approved audit decision always references an asset whose
insurance was valid at evaluation time: the auditor never selects a
candidate whose insuranceValid flag is false or whose insurance expiry date
is before the evaluation date, regardless of rank, efficiency or margin. -/
theorem audit_approved_insurance_valid (cfg : AuditConfig) (req : LoadRequest) (today : Int)
    (cands : List CandidateScore) (q : QuotaState) (a : FleetAsset)
    (happ : (audit cfg req today cands q).1.status = .approved)
    (hch : (audit cfg req today cands q).1.chosenAsset = some a) :
    a.insuranceValid = true ∧ today ≤ a.insuranceExpiry := by
  cases cands with
  | nil => simp [audit] at happ
  | cons c rest =>
    have hdef : audit cfg req today (c :: rest) q = auditGo cfg req today (c :: rest) q [] := rfl
    rw [hdef] at happ hch
    obtain ⟨c', _, hch', hok⟩ := auditGo_approved_spec cfg req today (c :: rest) q [] happ
    rw [hch'] at hch
    injection hch with hch
    obtain ⟨hv, he, -⟩ := evalCandidate_ok_spec hok
    exact ⟨hch ▸ hv, hch ▸ he⟩

/-- C1 witness: a concrete approved dispatch whose chosen asset has valid,
unexpired insurance. -/
theorem audit_approved_insurance_valid_witness :
    (audit {} reqEx 20000 [candXYZ] ⟨0, 0⟩).1.status = .approved ∧
    (audit {} reqEx 20000 [candXYZ] ⟨0, 0⟩).1.chosenAsset = some assetXYZ ∧
    assetXYZ.insuranceValid = true ∧ (20000 : Int) ≤ assetXYZ.insuranceExpiry := by
  have h1 : (audit ({} : AuditConfig) reqEx 20000 [candXYZ] ⟨0, 0⟩).1.status = .approved := by
    norm_num [audit, auditGo, evalCandidate, computeMargin, isNewAsset, quotaHasRoom,
      quotaRatio, candXYZ, assetXYZ, reqEx]
  have h2 : (audit ({} : AuditConfig) reqEx 20000 [candXYZ] ⟨0, 0⟩).1.chosenAsset =
      some assetXYZ := by
    norm_num [audit, auditGo, evalCandidate, computeMargin, isNewAsset, quotaHasRoom,
      quotaRatio, candXYZ, assetXYZ, reqEx]
  exact ⟨h1, h2, audit_approved_insurance_valid {} reqEx 20000 [candXYZ] ⟨0, 0⟩ assetXYZ h1 h2⟩

/-- C2: the margin attached to an approved decision is computed as
(targetPrice - costPerDistance * distance - riskAdjustment) / targetPrice,
with the risk adjustment deducted exactly when the asset is younger than the
new-asset age threshold, and it always meets the minimum margin threshold;
an approved new asset moreover implies the exploration quota had room. -/
theorem audit_approved_margin_threshold (cfg : AuditConfig) (req : LoadRequest) (today : Int)
    (cands : List CandidateScore) (q : QuotaState)
    (happ : (audit cfg req today cands q).1.status = .approved) :
    ∃ c ∈ cands,
      (audit cfg req today cands q).1.chosenAsset = some c.asset ∧
      (audit cfg req today cands q).1.margin =
        (req.targetPrice - c.asset.costPerDistance * c.distanceKm -
          (if c.asset.daysSinceRegistration < cfg.newAssetAgeDays then cfg.riskAdjustment
            else 0)) / req.targetPrice ∧
      cfg.minimumMarginThreshold ≤ (audit cfg req today cands q).1.margin ∧
      ((audit cfg req today cands q).1.isNewAsset = true → quotaHasRoom cfg q) := by
  cases cands with
  | nil => simp [audit] at happ
  | cons c rest =>
    have hdef : audit cfg req today (c :: rest) q = auditGo cfg req today (c :: rest) q [] := rfl
    rw [hdef] at happ ⊢
    obtain ⟨c', hc', hch', hok⟩ := auditGo_approved_spec cfg req today (c :: rest) q [] happ
    obtain ⟨-, -, hm, hthr, hnw, hq⟩ := evalCandidate_ok_spec hok
    refine ⟨c', hc', hch', ?_, hthr, ?_⟩
    · rw [hm, computeMargin, isNewAsset]
      simp only [decide_eq_true_eq]
    · intro h
      exact hq (hnw ▸ h)

/-- C2 witness: the concrete approved dispatch meets the default 0.70
margin floor. -/
theorem audit_approved_margin_threshold_witness :
    (audit {} reqEx 20000 [candXYZ] ⟨0, 0⟩).1.status = .approved ∧
    ({} : AuditConfig).minimumMarginThreshold ≤
      (audit {} reqEx 20000 [candXYZ] ⟨0, 0⟩).1.margin := by
  have h1 : (audit ({} : AuditConfig) reqEx 20000 [candXYZ] ⟨0, 0⟩).1.status = .approved := by
    norm_num [audit, auditGo, evalCandidate, computeMargin, isNewAsset, quotaHasRoom,
      quotaRatio, candXYZ, assetXYZ, reqEx]
  obtain ⟨c, -, -, -, hthr, -⟩ :=
    audit_approved_margin_threshold {} reqEx 20000 [candXYZ] ⟨0, 0⟩ h1
  exact ⟨h1, hthr⟩

/-- C3: an audit over an empty candidate list is rejected with the single
reason noCandidatesInRange; an audit over a non-empty candidate list that
ends rejected carries exactly one reason per evaluated candidate, tagged
with the candidate plates in evaluation order. -/
theorem audit_rejection_reasons (cfg : AuditConfig) (req : LoadRequest) (today : Int)
    (cands : List CandidateScore) (q : QuotaState) :
    (cands = [] →
      (audit cfg req today cands q).1.status = .rejected ∧
      (audit cfg req today cands q).1.chosenAsset = none ∧
      (audit cfg req today cands q).1.reasons = [(req.id, RejectReason.noCandidatesInRange)]) ∧
    (cands ≠ [] → (audit cfg req today cands q).1.status = .rejected →
      (audit cfg req today cands q).1.reasons.length = cands.length ∧
      (audit cfg req today cands q).1.reasons.map Prod.fst =
        cands.map fun c => c.asset.plate) := by
  constructor
  · rintro rfl
    exact ⟨rfl, rfl, rfl⟩
  · intro hne hrej
    cases cands with
    | nil => exact absurd rfl hne
    | cons c rest =>
      have hdef : audit cfg req today (c :: rest) q =
          auditGo cfg req today (c :: rest) q [] := rfl
      rw [hdef] at hrej ⊢
      have hmap := auditGo_rejected_reasons cfg req today (c :: rest) q [] hrej
      simp only [List.reverse_nil, List.map_nil, List.nil_append] at hmap
      refine ⟨?_, hmap⟩
      have := congrArg List.length hmap
      simpa using this

/-- C3 witness: the empty candidate list yields the single
noCandidatesInRange reason, and a concrete fully rejected run lists one
reason per candidate plate in evaluation order. -/
theorem audit_rejection_reasons_witness :
    (audit {} reqEx 20000 [] ⟨0, 0⟩).1.reasons =
      [(reqEx.id, RejectReason.noCandidatesInRange)] ∧
    (audit {} reqEx 20000 [candABC, candPQR] ⟨0, 0⟩).1.status = .rejected ∧
    (audit {} reqEx 20000 [candABC, candPQR] ⟨0, 0⟩).1.reasons.map Prod.fst =
      [assetABC.plate, assetPQR.plate] := by
  have hrej : (audit ({} : AuditConfig) reqEx 20000 [candABC, candPQR] ⟨0, 0⟩).1.status =
      .rejected := by
    norm_num [audit, auditGo, evalCandidate, computeMargin, isNewAsset, quotaHasRoom,
      quotaRatio, candABC, candPQR, assetABC, assetPQR, reqEx]
  have h1 := (audit_rejection_reasons {} reqEx 20000 [] ⟨0, 0⟩).1 rfl
  have h2 := (audit_rejection_reasons {} reqEx 20000 [candABC, candPQR] ⟨0, 0⟩).2
    (by simp) hrej
  refine ⟨h1.2.2, hrej, ?_⟩
  rw [h2.2]
  simp [candABC, candPQR]

/-- C7: dispatch always returns a terminal decision: every run ends
approved, or rejected with a non-empty explicit reason list; business
rejections are consumed into the decision rather than escaping. -/
theorem dispatch_always_terminal (cfg : AuditConfig) (req : LoadRequest) (today : Int)
    (snap : List IndexedAsset) (q : QuotaState) :
    (dispatch cfg req today snap q).1.status = .approved ∨
      ((dispatch cfg req today snap q).1.status = .rejected ∧
        0 < (dispatch cfg req today snap q).1.reasons.length) := by
  unfold dispatch
  cases hcs : findCandidates req snap with
  | nil =>
    right
    constructor
    · rfl
    · simp [audit]
  | cons c rest =>
    cases hst : (audit cfg req today (c :: rest) q).1.status with
    | approved => exact Or.inl rfl
    | rejected =>
      right
      refine ⟨rfl, ?_⟩
      have hdef : audit cfg req today (c :: rest) q =
          auditGo cfg req today (c :: rest) q [] := rfl
      rw [hdef] at hst ⊢
      have hmap := auditGo_rejected_reasons cfg req today (c :: rest) q [] hst
      have hlen := congrArg List.length hmap
      simp at hlen
      omega

/-- C8: the tracker is deterministic: running findCandidates twice on the
same request and the same unchanged AssetIndex snapshot yields identical
ranked candidate lists. -/
theorem findCandidates_deterministic (req : LoadRequest) (snap1 snap2 : List IndexedAsset)
    (h : snap1 = snap2) : findCandidates req snap1 = findCandidates req snap2 := by
  rw [h]

/-- C8 witness: two runs on the concrete snapshot coincide. -/
theorem findCandidates_deterministic_witness :
    snapEx = snapEx ∧ findCandidates reqEx snapEx = findCandidates reqEx snapEx :=
  ⟨rfl, findCandidates_deterministic reqEx snapEx snapEx rfl⟩

/-- C4: on a request with positive radius and non-empty accepted fleet
types, the tracker scores every asset returned by the index search with the
floored margin estimate and efficiency = (1 / distance) * slaScore *
marginEstimate (distance clamped below by epsilon), returns the scored
candidates sorted by the rank order (descending efficiency, ties by higher
slaScore then lower distance) and truncates to at most top_k elements. -/
theorem findCandidates_ranked_truncated (req : LoadRequest) (snap : List IndexedAsset)
    (hr : 0 < req.radiusKm) (hf : req.acceptedFleetTypes ≠ []) :
    ∃ ranked : List CandidateScore,
      List.Perm ranked ((searchWithinRadius req snap).map (scoreCandidate req)) ∧
      List.Sorted rankLE ranked ∧
      findCandidates req snap = ranked.take req.topK ∧
      (findCandidates req snap).length ≤ req.topK ∧
      ∀ c ∈ findCandidates req snap,
        c.marginEstimate =
          max 0 ((req.targetPrice - c.asset.costPerDistance * c.distanceKm) / req.targetPrice) ∧
        c.efficiency = (1 / max distEpsilon c.distanceKm) * c.asset.slaScore * c.marginEstimate := by
  refine ⟨List.insertionSort rankLE ((searchWithinRadius req snap).map (scoreCandidate req)),
    List.perm_insertionSort _ _, List.sorted_insertionSort _ _, rfl, ?_, ?_⟩
  · exact List.length_take_le _ _
  · intro c hc
    have h1 : c ∈ List.insertionSort rankLE
        ((searchWithinRadius req snap).map (scoreCandidate req)) :=
      List.take_subset _ _ hc
    have hmem : c ∈ (searchWithinRadius req snap).map (scoreCandidate req) := by
      simpa using h1
    obtain ⟨e, -, rfl⟩ := List.mem_map.1 hmem
    constructor
    · simp [scoreCandidate]
    · simp [scoreCandidate]

/-- C4 witness: the concrete Scenario A request has a positive radius and a
non-empty fleet-type set, and the tracker output respects the top_k bound. -/
theorem findCandidates_ranked_truncated_witness :
    0 < reqEx.radiusKm ∧ reqEx.acceptedFleetTypes ≠ [] ∧
    (findCandidates reqEx snapEx).length ≤ reqEx.topK := by
  have hr : 0 < reqEx.radiusKm := by norm_num [reqEx]
  have hf : reqEx.acceptedFleetTypes ≠ [] := by simp [reqEx]
  obtain ⟨ranked, -, -, -, hlen, -⟩ := findCandidates_ranked_truncated reqEx snapEx hr hf
  exact ⟨hr, hf, hlen⟩

/-! ## Quota invariant -/

theorem quota_invariant (cfg : AuditConfig) (hcap : 0 ≤ cfg.quotaCap)
    (q : QuotaState) (hq : QuotaReachable cfg q) :
    q.newAssetDispatches ≤ q.totalDispatches ∧
      (q.newAssetDispatches : ℚ) ≤ cfg.quotaCap * (q.totalDispatches : ℚ) + 1 := by
  induction hq with
  | init => exact ⟨le_refl 0, by norm_num⟩
  | @step qp qc hprev hstep ih =>
    obtain ⟨ih1, ih2⟩ := ih
    cases hstep with
    | approveOld =>
      refine ⟨by simp [recordApproval]; omega, ?_⟩
      simp only [recordApproval]
      push_cast
      nlinarith [ih2, hcap]
    | approveNew hroom =>
      refine ⟨by simp [recordApproval]; omega, ?_⟩
      by_cases ht : qp.totalDispatches = 0
      · have hz : qp.newAssetDispatches = 0 := by omega
        simp only [recordApproval, ht, hz]
        push_cast
        nlinarith [hcap]
      · have htpos : (0 : ℚ) < (qp.totalDispatches : ℚ) := by
          exact_mod_cast Nat.pos_of_ne_zero ht
        have hratio : (qp.newAssetDispatches : ℚ) / (qp.totalDispatches : ℚ) < cfg.quotaCap := by
          have hr2 := hroom
          rwa [quotaHasRoom, quotaRatio, if_neg ht] at hr2
        have hlt : (qp.newAssetDispatches : ℚ) < cfg.quotaCap * (qp.totalDispatches : ℚ) :=
          (div_lt_iff htpos).1 hratio
        simp only [recordApproval]
        push_cast
        nlinarith [hlt, hcap]
    | reset => exact ⟨le_refl 0, by norm_num⟩

/-- C6: in every reachable state of the quota step relation, the fraction of
approvals allocated to new assets over the rolling window never exceeds the
0.15 cap plus one unit of counting granularity. -/
theorem quota_ratio_bounded (cfg : AuditConfig) (q : QuotaState)
    (hcap : cfg.quotaCap = 3 / 20) (hq : QuotaReachable cfg q)
    (ht : 0 < q.totalDispatches) :
    (q.newAssetDispatches : ℚ) / (q.totalDispatches : ℚ) ≤
      3 / 20 + 1 / (q.totalDispatches : ℚ) := by
  have hcap' : 0 ≤ cfg.quotaCap := by rw [hcap]; norm_num
  obtain ⟨-, h2⟩ := quota_invariant cfg hcap' q hq
  rw [hcap] at h2
  have htq : (0 : ℚ) < (q.totalDispatches : ℚ) := by exact_mod_cast ht
  rw [div_le_iff htq]
  have hexp : (3 / 20 + 1 / (q.totalDispatches : ℚ)) * (q.totalDispatches : ℚ) =
      3 / 20 * (q.totalDispatches : ℚ) + 1 := by
    field_simp
    ring
  rw [hexp]
  exact h2

/-- C6 witness: after one guarded new-asset approval from the empty window,
the ratio bound holds at the concrete state (1, 1). -/
theorem quota_ratio_bounded_witness :
    ({} : AuditConfig).quotaCap = 3 / 20 ∧
    QuotaReachable ({} : AuditConfig) ⟨1, 1⟩ ∧
    ((1 : ℚ) / 1 ≤ 3 / 20 + 1 / 1) := by
  have hcap : ({} : AuditConfig).quotaCap = 3 / 20 := rfl
  have hroom : quotaHasRoom ({} : AuditConfig) ⟨0, 0⟩ := by
    rw [quotaHasRoom, quotaRatio]
    norm_num
  have hstep : QuotaStep ({} : AuditConfig) ⟨0, 0⟩ ⟨1, 1⟩ := by
    have h : QuotaStep ({} : AuditConfig) ⟨0, 0⟩ (recordApproval ⟨0, 0⟩ true) :=
      QuotaStep.approveNew ⟨0, 0⟩ hroom
    simpa [recordApproval] using h
  have hreach : QuotaReachable ({} : AuditConfig) ⟨1, 1⟩ :=
    QuotaReachable.step QuotaReachable.init hstep
  have hb := quota_ratio_bounded {} ⟨1, 1⟩ hcap hreach (by norm_num)
  refine ⟨hcap, hreach, ?_⟩
  simpa using hb

/-! ## Helper lemmas for the ranking-quality metric -/

theorem dcgFrom_nonneg :
    ∀ (l : List ℝ) (w : ℕ → ℝ), (∀ i, 0 ≤ w i) → (∀ r ∈ l, 0 ≤ r) → 0 ≤ dcgFrom w l := by
  intro l
  induction l with
  | nil => intro w _ _; simp [dcgFrom]
  | cons r rest ih =>
    intro w hw hl
    simp only [dcgFrom]
    have h1 : 0 ≤ w 0 * r := mul_nonneg (hw 0) (hl r (List.mem_cons_self r rest))
    have h2 : 0 ≤ dcgFrom (fun i => w (i + 1)) rest :=
      ih _ (fun i => hw (i + 1)) (fun x hx => hl x (List.mem_cons_of_mem r hx))
    linarith

theorem dcgFrom_le_orderedInsert (x : ℝ) :
    ∀ (ys : List ℝ) (w : ℕ → ℝ), (∀ i, w (i + 1) ≤ w i) →
      dcgFrom w (x :: ys) ≤ dcgFrom w (List.orderedInsert (· ≥ ·) x ys) := by
  intro ys
  induction ys with
  | nil =>
    intro w _
    simp [List.orderedInsert]
  | cons y t ih =>
    intro w hw
    by_cases hxy : x ≥ y
    · simp [List.orderedInsert, hxy]
    · have hyx : x ≤ y := le_of_not_le hxy
      have hins : List.orderedInsert (· ≥ ·) x (y :: t) =
          y :: List.orderedInsert (· ≥ ·) x t := by
        simp [List.orderedInsert, hxy]
      rw [hins]
      have hIH := ih (fun i => w (i + 1)) (fun i => hw (i + 1))
      simp only [dcgFrom] at hIH ⊢
      nlinarith [hIH, mul_nonneg (sub_nonneg.2 (hw 0)) (sub_nonneg.2 hyx)]

theorem dcgFrom_le_insertionSort :
    ∀ (l : List ℝ) (w : ℕ → ℝ), (∀ i, w (i + 1) ≤ w i) →
      dcgFrom w l ≤ dcgFrom w (List.insertionSort (· ≥ ·) l) := by
  intro l
  induction l with
  | nil => intro w _; simp [List.insertionSort]
  | cons x t ih =>
    intro w hw
    have h1 : dcgFrom w (x :: t) ≤ dcgFrom w (x :: List.insertionSort (· ≥ ·) t) := by
      simp only [dcgFrom]
      have := ih (fun i => w (i + 1)) (fun i => hw (i + 1))
      linarith
    have h2 := dcgFrom_le_orderedInsert x (List.insertionSort (· ≥ ·) t) w hw
    have h3 : List.insertionSort (· ≥ ·) (x :: t) =
        List.orderedInsert (· ≥ ·) x (List.insertionSort (· ≥ ·) t) := rfl
    rw [h3]
    exact le_trans h1 h2

theorem discountWeight_pos (i : ℕ) : 0 < discountWeight i := by
  rw [discountWeight]
  have hb : (1 : ℝ) < 2 := by norm_num
  have hx : (1 : ℝ) < (i : ℝ) + 2 := by
    have : (0 : ℝ) ≤ (i : ℝ) := Nat.cast_nonneg i
    linarith
  have hlog := Real.logb_pos hb hx
  positivity

theorem discountWeight_antitone (i : ℕ) : discountWeight (i + 1) ≤ discountWeight i := by
  rw [discountWeight, discountWeight]
  have hb : (1 : ℝ) < 2 := by norm_num
  have h0 : (0 : ℝ) ≤ (i : ℝ) := Nat.cast_nonneg i
  have hlog := Real.logb_pos hb (by linarith : (1 : ℝ) < (i : ℝ) + 2)
  have hcast : ((i + 1 : ℕ) : ℝ) + 2 = (i : ℝ) + 3 := by push_cast; ring
  rw [hcast]
  have hle : Real.logb 2 ((i : ℝ) + 2) ≤ Real.logb 2 ((i : ℝ) + 3) :=
    Real.logb_le_logb_of_le hb (by linarith) (by linarith)
  exact one_div_le_one_div_of_le hlog hle

/-- C5 amended: the reported score equals 1 when the candidate set has
exactly one member or IDCG is 0, and it lies in the interval [0, 1] whenever
every per-candidate relevance value is nonnegative. -/
theorem ndcg_target_price_bounds (rels : List ℝ) :
    ((rels.length = 1 ∨ idcgTargetPrice rels = 0) → ndcgTargetPrice rels = 1) ∧
    ((∀ r ∈ rels, 0 ≤ r) → 0 ≤ ndcgTargetPrice rels ∧ ndcgTargetPrice rels ≤ 1) := by
  constructor
  · intro h
    rw [ndcgTargetPrice, if_pos h]
  · intro hnn
    by_cases h : rels.length = 1 ∨ idcgTargetPrice rels = 0
    · rw [ndcgTargetPrice, if_pos h]
      norm_num
    · rw [ndcgTargetPrice, if_neg h]
      push_neg at h
      have hwpos : ∀ i, 0 ≤ discountWeight i := fun i => (discountWeight_pos i).le
      have hdcg : 0 ≤ dcgFrom discountWeight rels :=
        dcgFrom_nonneg rels discountWeight hwpos hnn
      have hsortnn : ∀ r ∈ List.insertionSort (· ≥ ·) rels, 0 ≤ r := by
        intro r hr
        exact hnn r (by simpa using hr)
      have hidcg0 : 0 ≤ idcgTargetPrice rels := by
        rw [idcgTargetPrice]
        exact dcgFrom_nonneg _ discountWeight hwpos hsortnn
      have hidcg : 0 < idcgTargetPrice rels := lt_of_le_of_ne hidcg0 (Ne.symm h.2)
      have hle : dcgFrom discountWeight rels ≤ idcgTargetPrice rels := by
        rw [idcgTargetPrice]
        exact dcgFrom_le_insertionSort rels discountWeight discountWeight_antitone
      exact ⟨div_nonneg hdcg hidcg0, (div_le_one hidcg).2 hle⟩

/-- C5 amended witness: a singleton relevance list has score 1, and a
concrete nonnegative relevance list keeps the score inside [0, 1]. -/
theorem ndcg_target_price_bounds_witness :
    ([(1 : ℝ) / 2].length = 1 ∨ idcgTargetPrice [(1 : ℝ) / 2] = 0) ∧
    ndcgTargetPrice [(1 : ℝ) / 2] = 1 ∧
    (∀ r ∈ [(1 : ℝ) / 2], 0 ≤ r) ∧
    (0 ≤ ndcgTargetPrice [(1 : ℝ) / 2] ∧ ndcgTargetPrice [(1 : ℝ) / 2] ≤ 1) := by
  have hlen : [(1 : ℝ) / 2].length = 1 ∨ idcgTargetPrice [(1 : ℝ) / 2] = 0 := Or.inl rfl
  have hnn : ∀ r ∈ [(1 : ℝ) / 2], 0 ≤ r := by
    intro r hr
    simp at hr
    rw [hr]
    norm_num
  exact ⟨hlen, (ndcg_target_price_bounds _).1 hlen, hnn, (ndcg_target_price_bounds _).2 hnn⟩

/-- C5 counterexample: at the concrete evaluated margins -3/4 and 3/4 the
relevance values are -1 and 1, and the reported score DCG/IDCG is negative,
so the score is not always in the interval [0, 1]. -/
theorem ndcg_target_price_counterexample :
    ¬ (0 ≤ ndcgTargetPrice [targetRelevance (-3 / 4), targetRelevance (3 / 4)] ∧
        ndcgTargetPrice [targetRelevance (-3 / 4), targetRelevance (3 / 4)] ≤ 1) := by
  have hrel1 : targetRelevance (-3 / 4) = -1 := by
    rw [targetRelevance, idealMargin]
    rw [show (-3 / 4 - 3 / 4 : ℝ) = -(3 / 2) by norm_num, abs_neg,
      abs_of_nonneg (by norm_num : (0 : ℝ) ≤ 3 / 2)]
    norm_num
  have hrel2 : targetRelevance (3 / 4) = 1 := by
    rw [targetRelevance, idealMargin]
    rw [show (3 / 4 - 3 / 4 : ℝ) = 0 by norm_num]
    simp
  rw [hrel1, hrel2]
  have hb : (1 : ℝ) < 2 := by norm_num
  have hw0 : discountWeight 0 = 1 := by
    rw [discountWeight]
    have h2 : ((0 : ℕ) : ℝ) + 2 = 2 := by norm_num
    rw [h2, Real.logb_self_eq_one hb]
    norm_num
  have hL : 1 < Real.logb 2 3 := by
    have h := Real.logb_lt_logb hb (by norm_num : (0 : ℝ) < 2)
      (by norm_num : (2 : ℝ) < 3)
    rwa [Real.logb_self_eq_one hb] at h
  have hw1lt : discountWeight 1 < 1 := by
    rw [discountWeight]
    have h3 : ((1 : ℕ) : ℝ) + 2 = 3 := by norm_num
    rw [h3, div_lt_one (by linarith)]
    exact hL
  have hw1pos : 0 < discountWeight 1 := discountWeight_pos 1
  have hsort : List.insertionSort (· ≥ ·) [(-1 : ℝ), 1] = [1, -1] := by
    simp only [List.insertionSort, List.orderedInsert]
    rw [if_neg (by norm_num : ¬ ((-1 : ℝ) ≥ 1))]
  have hidcg : idcgTargetPrice [(-1 : ℝ), 1] = 1 - discountWeight 1 := by
    rw [idcgTargetPrice, hsort]
    simp [dcgFrom, hw0]
    ring
  have hdcg : dcgFrom discountWeight [(-1 : ℝ), 1] = discountWeight 1 - 1 := by
    simp [dcgFrom, hw0]
    ring
  intro hcl
  have hcond : ¬ ([(-1 : ℝ), 1].length = 1 ∨ idcgTargetPrice [(-1 : ℝ), 1] = 0) := by
    push_neg
    refine ⟨by norm_num, ?_⟩
    rw [hidcg]
    intro h0
    linarith
  rw [ndcgTargetPrice, if_neg hcond, hdcg, hidcg] at hcl
  have hneg : (discountWeight 1 - 1) / (1 - discountWeight 1) < 0 :=
    div_neg_of_neg_of_pos (by linarith) (by linarith)
  linarith [hcl.1]

/-! ## Web dashboard claims -/

/-- C9: the cargas page renders exactly the entries whose id, origem or
destino contains the search term case-insensitively; with the empty search
term every entry is rendered. -/
theorem filteredCargas_search_correct (cargas : List Carga) (term : List Char) :
    (∀ c : Carga, c ∈ filteredCargas term cargas ↔
      c ∈ cargas ∧
        (containsSub (toLowerStr term) (toLowerStr c.id) ∨
          containsSub (toLowerStr term) (toLowerStr c.origem) ∨
          containsSub (toLowerStr term) (toLowerStr c.destino))) ∧
    filteredCargas [] cargas = cargas := by
  constructor
  · intro c
    simp [filteredCargas, List.mem_filter, matchesSearch, Bool.or_eq_true,
      decide_eq_true_eq, or_assoc]
  · rw [filteredCargas, List.filter_eq_self]
    intro c _
    simp [matchesSearch, toLowerStr, containsSub]

/-- C10: handleDeleteCarga removes exactly the entries whose id equals the
given id, keeps every other entry in its relative order, and is the identity
when no entry carries the id. -/
theorem handleDeleteCarga_removes_exactly (cargas : List Carga) (idc : List Char) :
    (∀ c : Carga, c ∈ handleDeleteCarga idc cargas ↔ c ∈ cargas ∧ c.id ≠ idc) ∧
    List.Sublist (handleDeleteCarga idc cargas) cargas ∧
    ((∀ c ∈ cargas, c.id ≠ idc) → handleDeleteCarga idc cargas = cargas) := by
  refine ⟨?_, List.filter_sublist _, ?_⟩
  · intro c
    simp [handleDeleteCarga, List.mem_filter]
  · intro h
    rw [handleDeleteCarga, List.filter_eq_self]
    intro c hc
    simpa using h c hc

/-- C10 witness: deleting an id that occurs in no entry leaves the concrete
dashboard list identical. -/
theorem handleDeleteCarga_removes_exactly_witness :
    (∀ c ∈ [cargaEx1, cargaEx2], c.id ≠ "CARGA-2026-003".toList) ∧
    handleDeleteCarga "CARGA-2026-003".toList [cargaEx1, cargaEx2] = [cargaEx1, cargaEx2] := by
  have h : ∀ c ∈ [cargaEx1, cargaEx2], c.id ≠ "CARGA-2026-003".toList := by decide
  exact ⟨h, (handleDeleteCarga_removes_exactly [cargaEx1, cargaEx2] _).2.2 h⟩

end FreteAI
